import Mathlib

/-!
Verification of the fleet reconciliation and job dispatch engine of
gitlab-meta-runner, as a shallow embedding of the Rust sources
(src/run.rs, src/configure.rs, src/config.rs, src/template.rs).

Modelling conventions:
* Rust HashMap/HashSet values are embedded as association lists / key lists;
  a list argument represents the (arbitrary but fixed) iteration order of the
  hash container, so theorems quantify over all iteration orders.
* u64 / u32 / usize become Nat.
* Asynchronous calls awaited with join_all are embedded by mapping a response
  oracle over the request list: the fan-out/fan-in barrier makes the
  concurrent execution equivalent to this sequential one.
* Fallible API calls return an explicit result type; the GitLab API client is
  an external collaborator, so its responses are oracle parameters.
-/

namespace MetaRunner

/-- Embedding of gitlab_wrap::Job (src/gitlab_wrap.rs): a pending CI job. -/
structure Job where
  id : Nat
  name : String
  tags : List String
deriving DecidableEq, Repr

/-- Embedding of config::GitLabRunnerInstance (src/config.rs lines 99-109). -/
structure GitLabRunnerInstance where
  tags : List String
  launch_priority : Option Nat
  config_variables : List (String × String)
deriving DecidableEq, Repr

instance : Inhabited GitLabRunnerInstance := ⟨⟨[], none, []⟩⟩

/-- Embedding of gitlab_config::RunnerRegistration (src/gitlab_config.rs). -/
structure RunnerRegistration where
  id : Nat
  token : String
deriving DecidableEq, Repr

/-- Embedding of the gitlab crate's ApiError variants distinguished by
configure::is_error_not_found (src/configure.rs lines 76-86): a GitlabService
error with an HTTP status, a GitlabWithStatus error with an HTTP status, or
any other error kind. -/
inductive ApiError where
  | gitlabService (status : Nat)
  | gitlabWithStatus (status : Nat)
  | otherKind (tag : Nat)
deriving DecidableEq, Repr

/-- Embedding of ApiResult from src/gitlab_wrap.rs: Result of a GitLab API call. -/
inductive ApiResult (α : Type) where
  | ok (value : α)
  | err (e : ApiError)
deriving DecidableEq, Repr

/-- HTTP status NOT_FOUND. -/
def notFoundStatus : Nat := 404

/-- Embedding of configure::is_error_not_found (src/configure.rs lines 76-86). -/
def is_error_not_found {α : Type} : ApiResult α → Bool
  | .ok _ => false
  | .err (.gitlabService status) => status == notFoundStatus
  | .err (.gitlabWithStatus status) => status == notFoundStatus
  | .err (.otherKind _) => false

/-! Generic list helpers used by the embedding. -/

/-- Embedding of Rust Iterator::min_by_key semantics: the first element whose
key is minimal, or none for an empty iterator. -/
def minByKeyFirst {α : Type} (key : α → Nat) (l : List α) : Option α :=
  l.foldl
    (fun acc x =>
      match acc with
      | none => some x
      | some b => if key x < key b then some x else acc)
    none

/-- Fuel-indexed chunking recursion, structural on the fuel so that the
kernel can evaluate it; the fuel is instantiated with the list length. -/
def chunkListFuel {α : Type} (size : Nat) : Nat → List α → List (List α)
  | _, [] => []
  | 0, l => [l]
  | fuel + 1, x :: xs =>
    (x :: xs).take size :: chunkListFuel size fuel ((x :: xs).drop size)

/-- Embedding of itertools chunks(size): splits a list into contiguous chunks
of the given size, the last one possibly smaller. Defined for size zero as a
single chunk, a configuration run_impl never reaches. -/
def chunkList {α : Type} (size : Nat) (l : List α) : List (List α) :=
  match size with
  | 0 =>
    match l with
    | [] => []
    | l => [l]
  | size + 1 => chunkListFuel (size + 1) l.length l

end MetaRunner

namespace MetaRunner

/-! Job matcher (src/run.rs lines 54-71). -/

/-- Eligibility test of find_match as written in the source: the cardinality
of the intersection of the requested tag set with the available tag set
equals the cardinality of the requested tag set. -/
def tagsEligible (job : Job) (instanceTags : List String) : Bool :=
  (job.tags.toFinset ∩ instanceTags.toFinset).card == job.tags.toFinset.card

/-- Embedding of run::find_match (src/run.rs lines 54-71): filter the
instances whose tag set contains all requested tags, then take the one with
the minimal tag count (first such, per Iterator::min_by_key). The instance
list stands for the HashMap iteration order. -/
def find_match (instances : List (String × GitLabRunnerInstance)) (job : Job) :
    Option (String × GitLabRunnerInstance) :=
  minByKeyFirst (fun i => i.2.tags.length)
    (instances.filter (fun i => tagsEligible job i.2.tags))

end MetaRunner

namespace MetaRunner

/-! Job dispatch scheduler (src/run.rs lines 171-243 and 245-289). -/

/-- Modelled from the spec: the launch_order sort key used by run_impl
(src/run.rs line 182) is defined on GitLabRunnerInstance outside the provided
sources; following the spec, a comparison realizing higher launch_priority
first and instances without a priority last. -/
def launch_order_le : Option Nat → Option Nat → Bool
  | some p, some q => decide (q ≤ p)
  | some _, none => true
  | none, some _ => false
  | none, none => true

/-- One per-instance group of matched jobs: name, instance, jobs in matched order. -/
abbrev JobGroup := String × GitLabRunnerInstance × List Job

/-- Stable insertion of an element into a sorted list: the element goes in
front of the first entry it compares less-or-equal to, hence in front of
every equal entry that was originally later. -/
def insertSorted {α : Type} (le : α → α → Bool) (x : α) : List α → List α
  | [] => [x]
  | y :: ys => if le x y then x :: y :: ys else y :: insertSorted le x ys

/-- Stable insertion sort, used to embed Vec::sort_by_key (a stable sort; any
stable sort of the same comparison produces the same list). -/
def insertionSort {α : Type} (le : α → α → Bool) : List α → List α
  | [] => []
  | x :: xs => insertSorted le x (insertionSort le xs)

/-- Embedding of the stable sort at src/run.rs line 182: Vec::sort_by_key
with the launch_order key is a stable sort by that key. -/
def sortGroups (groups : List JobGroup) : List JobGroup :=
  insertionSort (fun a b => launch_order_le a.2.1.launch_priority b.2.1.launch_priority) groups

/-- Jobs of the group with the given name, in matched order (the push order of
src/run.rs lines 175-180). -/
def jobsOf (matched : List (String × GitLabRunnerInstance × Job)) (n : String) : List Job :=
  (matched.filter (fun t => t.1 = n)).map (fun t => t.2.2)

/-- Instance recorded for the group with the given name (the first matched
entry's instance, src/run.rs line 177). -/
def instOf (matched : List (String × GitLabRunnerInstance × Job)) (n : String) :
    GitLabRunnerInstance :=
  ((matched.filter (fun t => t.1 = n)).map (fun t => t.2.1)).headI

/-- Embedding of the grouping loop of src/run.rs lines 174-181: group matched
jobs by runner-instance name. The resulting list order stands for the
arbitrary HashMap iteration order (first-occurrence order as representative). -/
def groupByName (matched : List (String × GitLabRunnerInstance × Job)) : List JobGroup :=
  (matched.map (fun t => t.1)).dedup.map (fun n => (n, instOf matched n, jobsOf matched n))

/-- One external process invocation for a batch: worker name, the NUM_JOBS
value the launch configuration was expanded with, and the job batch the
invocation accounts for. -/
structure Launch where
  name : String
  numJobs : Nat
  batch : List Job
deriving DecidableEq, Repr

/-- Result of one dispatch cycle of run_impl. -/
structure RunResult where
  groups : List JobGroup
  launches : List Launch
  successful : List Nat
deriving Repr

/-- Embedding of run::run_impl (src/run.rs lines 171-243). Inputs: the
configured group_size, the matched jobs from check_jobs, and the outcome
oracle giving each launch process's success (per group name and chunk index,
the fan-out/fan-in of join_all). Per group, the launch configuration is
expanded once with num_jobs = group_size (line 195) and reused for every
chunk; the successful ids are the ids of all chunks whose process succeeded,
collected in group order (lines 213-230). -/
def run_impl (group_size : Nat) (matched : List (String × GitLabRunnerInstance × Job))
    (outcome : String → Nat → Bool) : RunResult :=
  let groups := sortGroups (groupByName matched)
  let launches := groups.flatMap (fun g =>
    (chunkList group_size g.2.2).map (fun chunk =>
      { name := g.1, numJobs := group_size, batch := chunk }))
  let successful := groups.flatMap (fun g =>
    ((chunkList group_size g.2.2).enum.filter (fun p => outcome g.1 p.1)).flatMap
      (fun p => p.2.map Job.id))
  { groups := groups, launches := launches, successful := successful }

/-- Embedding of run::check_jobs (src/run.rs lines 73-85): drop jobs already
in successful_job_ids, then keep those the matcher places, paired with their
match. -/
def check_jobs (successful_job_ids : Finset Nat)
    (instances : List (String × GitLabRunnerInstance)) (jobs : List Job) :
    List (String × GitLabRunnerInstance × Job) :=
  (jobs.filter (fun j => decide (j.id ∉ successful_job_ids))).filterMap
    (fun j => (find_match instances j).map (fun p => (p.1, p.2, j)))

/-- Ids the scheduler dispatches in one cycle, given the state of
successful_job_ids at the start of the cycle. -/
def dispatchedIds (successful_job_ids : Finset Nat)
    (instances : List (String × GitLabRunnerInstance)) (jobs : List Job) : List Nat :=
  (check_jobs successful_job_ids instances jobs).map (fun t => t.2.2.id)

/-- One iteration of the poll loop (src/run.rs lines 266-274): either the
poll failed (fetch error or overall timeout; state unchanged), or it fetched
a job listing and ran the dispatch with the given launch outcomes. -/
inductive CyclePoll where
  | failed
  | polled (jobs : List Job) (outcome : String → Nat → Bool)

/-- State update of one poll-loop iteration (src/run.rs lines 266-274): on
success, extend successful_job_ids with the cycle's successful ids; on
failure, leave the state unchanged. -/
def stepCycle (instances : List (String × GitLabRunnerInstance)) (group_size : Nat)
    (successful_job_ids : Finset Nat) : CyclePoll → Finset Nat
  | .failed => successful_job_ids
  | .polled jobs outcome =>
    successful_job_ids ∪
      ((run_impl group_size (check_jobs successful_job_ids instances jobs) outcome).successful).toFinset

/-- Iterated poll loop: state after the given list of cycles, starting from
the initial empty successful-id set or any given state. -/
def runCycles (instances : List (String × GitLabRunnerInstance)) (group_size : Nat)
    (s0 : Finset Nat) (cycles : List CyclePoll) : Finset Nat :=
  cycles.foldl (stepCycle instances group_size) s0

/-! Launch executor (src/run.rs lines 87-152). -/

/-- Outcome of awaiting the child process status under the timeout
(src/run.rs lines 117-124). -/
inductive StatusOutcome where
  | timeout
  | statusErr
  | exited (success : Bool)
deriving DecidableEq, Repr

/-- Environment of one launch_runner invocation: how each external
interaction turns out. -/
structure LaunchEnv where
  spawnOk : Bool
  writeOk : Bool
  status : StatusOutcome
  readOutOk : Bool
  readErrOk : Bool
deriving DecidableEq, Repr

/-- Verdict classification of launch_runner. -/
inductive LaunchVerdict where
  | spawnFailed
  | writeFailed
  | timedOut
  | statusFailed
  | readFailed
  | nonZeroExit
  | ok
deriving DecidableEq, Repr

/-- Result of launch_runner together with whether both output streams were
read before returning. -/
structure LaunchRun where
  verdict : LaunchVerdict
  streamsRead : Bool
deriving DecidableEq, Repr

/-- Embedding of run::launch_runner (src/run.rs lines 87-152), following its
control flow: spawn, write stdin, await status under the timeout, and only
then read stdout and stderr to completion; every earlier failure returns with
the question-mark operator before the streams are read (lines 99-124 precede
the reads at lines 125-134). -/
def launch_runner (env : LaunchEnv) : LaunchRun :=
  if !env.spawnOk then { verdict := .spawnFailed, streamsRead := false }
  else if !env.writeOk then { verdict := .writeFailed, streamsRead := false }
  else
    match env.status with
    | .timeout => { verdict := .timedOut, streamsRead := false }
    | .statusErr => { verdict := .statusFailed, streamsRead := false }
    | .exited success =>
      if !env.readOutOk then { verdict := .readFailed, streamsRead := true }
      else if !env.readErrOk then { verdict := .readFailed, streamsRead := true }
      else if success then { verdict := .ok, streamsRead := true }
      else { verdict := .nonZeroExit, streamsRead := true }

end MetaRunner

namespace MetaRunner

/-! Registration reconciler (src/configure.rs lines 88-185). -/

/-- Responses of the GitLab API for one reconciliation pass, keyed by runner
name (each name issues at most one call of each kind per pass). -/
structure ReconcileEnv where
  updateResp : String → ApiResult Unit
  addResp : String → ApiResult RunnerRegistration
  deleteResp : String → ApiResult Unit

/-- Observable outcome of one update_registrations invocation: the result
registration map, the collected errors, the keys of the issued update, create
and delete calls, the map written to the token store, and the returned
value. -/
structure ReconcileResult where
  newTokens : List (String × RunnerRegistration)
  errors : List ApiError
  updateCalls : List String
  addCalls : List String
  deleteCalls : List String
  written : List (String × RunnerRegistration)
  ret : Except ApiError (List (String × RunnerRegistration))

/-- Keys of the desired runner configuration (new_keys in src/configure.rs
line 104). -/
def runnerKeys (runners : List (String × List String)) : List String :=
  runners.map (fun r => r.1)

/-- Keys of the stored registrations (current_keys in src/configure.rs line
103). -/
def tokenKeys (tokens : List (String × RunnerRegistration)) : List String :=
  tokens.map (fun t => t.1)

/-- Registrations whose keys are both current and desired (to_update,
src/configure.rs line 106), carrying the stored registration. -/
def to_update (runners : List (String × List String))
    (tokens : List (String × RunnerRegistration)) : List (String × RunnerRegistration) :=
  tokens.filter (fun t => decide (t.1 ∈ runnerKeys runners))

/-- Update calls zipped with their responses (src/configure.rs lines
108-121). -/
def updateResults (runners : List (String × List String))
    (tokens : List (String × RunnerRegistration)) (env : ReconcileEnv) :
    List ((String × RunnerRegistration) × ApiResult Unit) :=
  (to_update runners tokens).map (fun t => (t, env.updateResp t.1))

/-- Keys removed from the current set because their update reported NotFound
(src/configure.rs lines 122-125). -/
def removedKeys (runners : List (String × List String))
    (tokens : List (String × RunnerRegistration)) (env : ReconcileEnv) : List String :=
  ((updateResults runners tokens env).filter (fun p => is_error_not_found p.2)).map
    (fun p => p.1.1)

/-- The current key set after the update phase (current_keys after the loop
of src/configure.rs lines 121-133). -/
def currentKeysAfterUpdate (runners : List (String × List String))
    (tokens : List (String × RunnerRegistration)) (env : ReconcileEnv) : List String :=
  (tokenKeys tokens).filter (fun k => decide (k ∉ removedKeys runners tokens env))

/-- Update results whose key stays registered (the else branch of
src/configure.rs lines 126-132). -/
def keptUpdates (runners : List (String × List String))
    (tokens : List (String × RunnerRegistration)) (env : ReconcileEnv) :
    List ((String × RunnerRegistration) × ApiResult Unit) :=
  (updateResults runners tokens env).filter (fun p => !is_error_not_found p.2)

/-- Registrations carried over into the result map by the update phase
(src/configure.rs line 127). -/
def tokensAfterUpdate (runners : List (String × List String))
    (tokens : List (String × RunnerRegistration)) (env : ReconcileEnv) :
    List (String × RunnerRegistration) :=
  (keptUpdates runners tokens env).map (fun p => p.1)

/-- Errors recorded by the update phase (src/configure.rs lines 128-131). -/
def updateErrors (runners : List (String × List String))
    (tokens : List (String × RunnerRegistration)) (env : ReconcileEnv) : List ApiError :=
  (keptUpdates runners tokens env).filterMap (fun p =>
    match p.2 with
    | .err e => some e
    | .ok _ => none)

/-- Keys to create (to_add, src/configure.rs line 135). -/
def to_add (runners : List (String × List String))
    (tokens : List (String × RunnerRegistration)) (env : ReconcileEnv) : List String :=
  (runnerKeys runners).filter (fun k => decide (k ∉ currentKeysAfterUpdate runners tokens env))

/-- Keys to delete (to_delete, src/configure.rs line 136). -/
def to_delete (runners : List (String × List String))
    (tokens : List (String × RunnerRegistration)) (env : ReconcileEnv) : List String :=
  (currentKeysAfterUpdate runners tokens env).filter (fun k => decide (k ∉ runnerKeys runners))

/-- Create calls zipped with their responses (src/configure.rs lines
139-152). -/
def addResults (runners : List (String × List String))
    (tokens : List (String × RunnerRegistration)) (env : ReconcileEnv) :
    List (String × ApiResult RunnerRegistration) :=
  (to_add runners tokens env).map (fun k => (k, env.addResp k))

/-- Delete calls zipped with their responses (src/configure.rs lines
147-153). -/
def deleteResults (runners : List (String × List String))
    (tokens : List (String × RunnerRegistration)) (env : ReconcileEnv) :
    List (String × ApiResult Unit) :=
  (to_delete runners tokens env).map (fun k => (k, env.deleteResp k))

/-- Fresh registrations inserted by successful create calls (src/configure.rs
lines 155-159). -/
def addedTokens (runners : List (String × List String))
    (tokens : List (String × RunnerRegistration)) (env : ReconcileEnv) :
    List (String × RunnerRegistration) :=
  (addResults runners tokens env).filterMap (fun p =>
    match p.2 with
    | .ok reg => some (p.1, reg)
    | .err _ => none)

/-- Errors recorded by failed create calls (src/configure.rs lines
160-164). -/
def addErrors (runners : List (String × List String))
    (tokens : List (String × RunnerRegistration)) (env : ReconcileEnv) : List ApiError :=
  (addResults runners tokens env).filterMap (fun p =>
    match p.2 with
    | .err e => some e
    | .ok _ => none)

/-- Errors recorded by the delete phase (src/configure.rs lines 167-174):
NotFound is dropped silently, any other error is recorded. The source logs
that the runner is kept in the list, but no registration is inserted back
into the result map here. -/
def deleteErrors (runners : List (String × List String))
    (tokens : List (String × RunnerRegistration)) (env : ReconcileEnv) : List ApiError :=
  (deleteResults runners tokens env).filterMap (fun p =>
    if is_error_not_found p.2 then none
    else
      match p.2 with
      | .err e => some e
      | .ok _ => none)

/-- The result registration map (new_tokens at the end of src/configure.rs
line 175): registrations kept by the update phase plus fresh created ones. -/
def newTokensMap (runners : List (String × List String))
    (tokens : List (String × RunnerRegistration)) (env : ReconcileEnv) :
    List (String × RunnerRegistration) :=
  tokensAfterUpdate runners tokens env ++ addedTokens runners tokens env

/-- All collected errors, in push order: update phase, then create phase,
then delete phase. -/
def reconcileErrors (runners : List (String × List String))
    (tokens : List (String × RunnerRegistration)) (env : ReconcileEnv) : List ApiError :=
  updateErrors runners tokens env ++ addErrors runners tokens env ++
    deleteErrors runners tokens env

/-- Embedding of configure::update_registrations (src/configure.rs lines
88-185). Inputs: the configured runner instances (name and tags, the desired
set, in iteration order), the stored tokens (the current set, as an
association list in iteration order), and the API response oracle.
Step by step from the source: intersect current and desired keys for the
update phase; a NotFound update moves the key back to the to-add set, any
other update result keeps the existing registration in the result map and a
non-NotFound error is recorded; then create every remaining desired-only key
(success inserts the fresh registration, failure is recorded and the key
omitted) and delete every current-only key (NotFound is dropped silently;
any other delete error is recorded, and the stale registration is not
re-inserted into the result map, lines 166-174); finally the result map is
written to the token file and the first collected error, if any, is
returned. -/
def update_registrations (runners : List (String × List String))
    (tokens : List (String × RunnerRegistration)) (env : ReconcileEnv) : ReconcileResult :=
  { newTokens := newTokensMap runners tokens env
    errors := reconcileErrors runners tokens env
    updateCalls := (to_update runners tokens).map (fun t => t.1)
    addCalls := to_add runners tokens env
    deleteCalls := to_delete runners tokens env
    written := newTokensMap runners tokens env
    ret :=
      match reconcileErrors runners tokens env with
      | [] => .ok (newTokensMap runners tokens env)
      | e :: _ => .error e }

/-- Property of a response oracle: no call answers NotFound. -/
def noNotFoundResponses (env : ReconcileEnv) : Prop :=
  (∀ k, is_error_not_found (env.updateResp k) = false) ∧
  (∀ k, is_error_not_found (env.addResp k) = false) ∧
  (∀ k, is_error_not_found (env.deleteResp k) = false)

/-! Launch configuration defaults (src/config.rs lines 61-63 and 111-126). -/

/-- Embedding of config::one (src/config.rs lines 61-63), the serde default
provider for group_size. -/
def one : Nat := 1

/-- Value of the group_size field after deserialization: the field value when
present, the serde default from the function one otherwise (src/config.rs
lines 123-125). -/
def groupSizeOrDefault (field : Option Nat) : Nat :=
  field.getD one

end MetaRunner

namespace MetaRunner

section MinByKey

variable {α : Type} (key : α → Nat)

theorem minByKeyFirst_go_spec (l : List α) : ∀ (c b : α),
    l.foldl
      (fun acc x =>
        match acc with
        | none => some x
        | some b => if key x < key b then some x else acc)
      (some c) = some b →
    (b = c ∨ b ∈ l) ∧ key b ≤ key c ∧ ∀ x ∈ l, key b ≤ key x := by
  induction l with
  | nil =>
    intro c b h
    simp only [List.foldl_nil, Option.some.injEq] at h
    subst h
    simp
  | cons x xs ih =>
    intro c b h
    simp only [List.foldl_cons] at h
    by_cases hx : key x < key c
    · simp only [hx, if_pos] at h
      obtain ⟨hmem, hle, hall⟩ := ih x b h
      refine ⟨?_, ?_, ?_⟩
      · rcases hmem with rfl | hmem
        · exact Or.inr (List.mem_cons_self _ _)
        · exact Or.inr (List.mem_cons_of_mem _ hmem)
      · exact le_trans hle (le_of_lt hx)
      · intro y hy
        rcases List.mem_cons.mp hy with rfl | hy
        · exact hle
        · exact hall y hy
    · simp only [hx, if_neg, not_false_iff] at h
      obtain ⟨hmem, hle, hall⟩ := ih c b h
      refine ⟨?_, hle, ?_⟩
      · rcases hmem with rfl | hmem
        · exact Or.inl rfl
        · exact Or.inr (List.mem_cons_of_mem _ hmem)
      · intro y hy
        rcases List.mem_cons.mp hy with rfl | hy
        · exact le_trans hle (le_of_not_lt hx)
        · exact hall y hy

theorem minByKeyFirst_go_isSome (l : List α) : ∀ (c : α),
    ∃ b, l.foldl
      (fun acc x =>
        match acc with
        | none => some x
        | some b => if key x < key b then some x else acc)
      (some c) = some b := by
  induction l with
  | nil => intro c; exact ⟨c, rfl⟩
  | cons x xs ih =>
    intro c
    simp only [List.foldl_cons]
    by_cases hx : key x < key c
    · simpa only [hx, if_pos] using ih x
    · simpa only [hx, if_neg, not_false_iff] using ih c

theorem minByKeyFirst_some_spec {l : List α} {b : α}
    (h : minByKeyFirst key l = some b) :
    b ∈ l ∧ ∀ x ∈ l, key b ≤ key x := by
  cases l with
  | nil => simp [minByKeyFirst] at h
  | cons x xs =>
    simp only [minByKeyFirst, List.foldl_cons] at h
    obtain ⟨hmem, hle, hall⟩ := minByKeyFirst_go_spec key xs x b h
    refine ⟨?_, ?_⟩
    · rcases hmem with rfl | hmem
      · exact List.mem_cons_self _ _
      · exact List.mem_cons_of_mem _ hmem
    · intro y hy
      rcases List.mem_cons.mp hy with rfl | hy
      · exact hle
      · exact hall y hy

theorem minByKeyFirst_eq_none_iff (l : List α) :
    minByKeyFirst key l = none ↔ l = [] := by
  cases l with
  | nil => simp [minByKeyFirst]
  | cons x xs =>
    simp only [minByKeyFirst, List.foldl_cons]
    obtain ⟨b, hb⟩ := minByKeyFirst_go_isSome key xs x
    simp [hb]

end MinByKey

/-- Bridge: the intersection-cardinality test of find_match is exactly the
subset condition on the job's tags. -/
theorem tagsEligible_iff (job : Job) (tags : List String) :
    tagsEligible job tags = true ↔ ∀ t ∈ job.tags, t ∈ tags := by
  unfold tagsEligible
  rw [beq_iff_eq]
  constructor
  · intro h t ht
    have hsub : job.tags.toFinset ∩ tags.toFinset ⊆ job.tags.toFinset :=
      Finset.inter_subset_left
    have heq : job.tags.toFinset ∩ tags.toFinset = job.tags.toFinset :=
      Finset.eq_of_subset_of_card_le hsub (le_of_eq h.symm)
    have : job.tags.toFinset ⊆ tags.toFinset := by
      rw [← Finset.inter_eq_left]
      exact heq
    have := this (List.mem_toFinset.mpr ht)
    exact List.mem_toFinset.mp this
  · intro h
    have : job.tags.toFinset ⊆ tags.toFinset := by
      intro t ht
      exact List.mem_toFinset.mpr (h t (List.mem_toFinset.mp ht))
    rw [Finset.inter_eq_left.mpr this]

/-! Chunking lemmas. -/

theorem flatten_chunkListFuel {α : Type} (size : Nat) (hs : 0 < size) :
    ∀ (fuel : Nat) (l : List α), l.length ≤ fuel →
      (chunkListFuel size fuel l).flatten = l := by
  intro fuel
  induction fuel with
  | zero =>
    intro l h
    have : l = [] := List.eq_nil_of_length_eq_zero (by omega)
    subst this
    rfl
  | succ fuel ih =>
    intro l h
    cases l with
    | nil => rfl
    | cons x xs =>
      show (((x :: xs).take size) :: chunkListFuel size fuel ((x :: xs).drop size)).flatten
        = x :: xs
      rw [List.flatten_cons, ih ((x :: xs).drop size) ?_]
      · exact List.take_append_drop _ _
      · rw [List.length_drop]
        simp only [List.length_cons] at h ⊢
        omega

theorem flatten_chunkList {α : Type} (size : Nat) (l : List α) :
    (chunkList size l).flatten = l := by
  cases size with
  | zero =>
    cases l with
    | nil => rfl
    | cons x xs => simp [chunkList]
  | succ size =>
    exact flatten_chunkListFuel (size + 1) (by omega) l.length l (le_refl _)

theorem chunkListFuel_one {α : Type} :
    ∀ (fuel : Nat) (l : List α), l.length ≤ fuel →
      chunkListFuel 1 fuel l = l.map (fun x => [x]) := by
  intro fuel
  induction fuel with
  | zero =>
    intro l h
    have : l = [] := List.eq_nil_of_length_eq_zero (by omega)
    subst this
    rfl
  | succ fuel ih =>
    intro l h
    cases l with
    | nil => rfl
    | cons x xs =>
      show ((x :: xs).take 1) :: chunkListFuel 1 fuel ((x :: xs).drop 1)
        = [x] :: xs.map (fun x => [x])
      simp only [List.take_succ_cons, List.take_zero, List.drop_succ_cons, List.drop_zero]
      rw [ih xs (by simpa using Nat.le_of_succ_le_succ h)]

theorem chunkList_one {α : Type} (l : List α) :
    chunkList 1 l = l.map (fun x => [x]) :=
  chunkListFuel_one l.length l (le_refl _)

/-- Chunk ids flatten to the job-list ids: the chunks of a group's job list
carry exactly the group's ids. -/
theorem flatten_map_chunkList_ids (size : Nat) (jobs : List Job) :
    ((chunkList size jobs).map (List.map Job.id)).flatten = jobs.map Job.id := by
  rw [← List.map_flatten, flatten_chunkList]

/-! Insertion-sort permutation lemmas. -/

theorem insertSorted_perm {α : Type} (le : α → α → Bool) (x : α) (l : List α) :
    (insertSorted le x l).Perm (x :: l) := by
  induction l with
  | nil => exact List.Perm.refl _
  | cons y ys ih =>
    unfold insertSorted
    by_cases h : le x y
    · rw [if_pos h]
    · rw [if_neg h]
      exact (ih.cons y).trans (List.Perm.swap x y ys)

theorem insertionSort_perm {α : Type} (le : α → α → Bool) (l : List α) :
    (insertionSort le l).Perm l := by
  induction l with
  | nil => exact List.Perm.refl _
  | cons x xs ih =>
    unfold insertionSort
    exact (insertSorted_perm le x (insertionSort le xs)).trans (ih.cons x)

theorem mem_insertSorted {α : Type} (le : α → α → Bool) (x a : α) (l : List α) :
    a ∈ insertSorted le x l ↔ a = x ∨ a ∈ l := by
  rw [(insertSorted_perm le x l).mem_iff, List.mem_cons]

/-! Grouping permutation lemmas. -/

theorem sum_map_ite_mem {β : Type} [DecidableEq β] (keys : List β) (hnd : keys.Nodup)
    (b : β) (v : Nat) :
    (keys.map (fun k => if b = k then v else 0)).sum = if b ∈ keys then v else 0 := by
  induction keys with
  | nil => simp
  | cons k ks ih =>
    rw [List.nodup_cons] at hnd
    obtain ⟨hk, hnd'⟩ := hnd
    by_cases hb : b = k
    · subst hb
      simp [ih hnd', hk]
    · simp only [List.map_cons, List.sum_cons, hb, if_neg, not_false_iff, List.mem_cons]
      rw [ih hnd' ]
      simp [hb]

/-- Partitioning a list by the deduplicated list of its keys is a permutation
of the list. -/
theorem dedup_flatMap_filter_perm {α β : Type} [DecidableEq α] [DecidableEq β]
    (key : α → β) (l : List α) :
    ((l.map key).dedup.flatMap (fun k => l.filter (fun x => decide (key x = k)))).Perm l := by
  rw [List.perm_iff_count]
  intro a
  rw [List.count_flatMap]
  have hmap : (List.map (List.count a ∘ fun k => l.filter (fun x => decide (key x = k)))
        (l.map key).dedup)
      = (l.map key).dedup.map (fun k => if key a = k then l.count a else 0) := by
    apply List.map_congr_left
    intro k hk
    simp only [Function.comp_apply]
    by_cases h : key a = k
    · rw [if_pos h]
      exact List.count_filter (by simp [h])
    · rw [if_neg h]
      apply List.count_eq_zero_of_not_mem
      intro hmem
      exact h (by simpa using (List.mem_filter.mp hmem).2)
  rw [hmap, sum_map_ite_mem _ (List.nodup_dedup _) (key a) (l.count a)]
  by_cases ha : a ∈ l
  · rw [if_pos (List.mem_dedup.mpr (List.mem_map_of_mem key ha))]
  · rw [List.count_eq_zero_of_not_mem ha]
    simp

/-- The concatenated job lists of groupByName form a permutation of the
matched jobs. -/
theorem groupByName_jobs_perm (matched : List (String × GitLabRunnerInstance × Job)) :
    ((groupByName matched).flatMap (fun g => g.2.2)).Perm
      (matched.map (fun t => t.2.2)) := by
  unfold groupByName
  rw [List.flatMap_map]
  have h1 : (matched.map (fun t => t.1)).dedup.flatMap
        (fun n => jobsOf matched n)
      = ((matched.map (fun t => t.1)).dedup.flatMap
        (fun n => matched.filter (fun t => decide (t.1 = n)))).map (fun t => t.2.2) := by
    rw [List.map_flatMap]
    rfl
  rw [h1]
  exact (dedup_flatMap_filter_perm (fun t => t.1) matched).map _

/-- The concatenated job lists of the sorted groups of run_impl form a
permutation of the matched jobs. -/
theorem run_impl_groups_jobs_perm (group_size : Nat)
    (matched : List (String × GitLabRunnerInstance × Job))
    (outcome : String → Nat → Bool) :
    (((run_impl group_size matched outcome).groups).flatMap (fun g => g.2.2)).Perm
      (matched.map (fun t => t.2.2)) := by
  have hsort : ((run_impl group_size matched outcome).groups).Perm (groupByName matched) :=
    insertionSort_perm _ _
  exact (hsort.flatMap_right _).trans (groupByName_jobs_perm matched)

/-- Under distinct matched job ids, the per-group id lists of run_impl are
each duplicate-free and pairwise disjoint. -/
theorem run_impl_group_ids_nodup (group_size : Nat)
    (matched : List (String × GitLabRunnerInstance × Job))
    (outcome : String → Nat → Bool)
    (hids : (matched.map (fun t => t.2.2.id)).Nodup) :
    (∀ ids ∈ ((run_impl group_size matched outcome).groups).map
        (fun g => g.2.2.map Job.id), ids.Nodup) ∧
    List.Pairwise List.Disjoint (((run_impl group_size matched outcome).groups).map
        (fun g => g.2.2.map Job.id)) := by
  have hperm : ((((run_impl group_size matched outcome).groups).map
        (fun g => g.2.2.map Job.id)).flatten).Perm
      (matched.map (fun t => t.2.2.id)) := by
    have h1 : (((run_impl group_size matched outcome).groups).map
          (fun g => g.2.2.map Job.id)).flatten
        = (((run_impl group_size matched outcome).groups).flatMap
          (fun g => g.2.2)).map Job.id := by
      rw [List.map_flatMap]
      rfl
    rw [h1]
    have := (run_impl_groups_jobs_perm group_size matched outcome).map Job.id
    rwa [List.map_map] at this
  have hnd : ((((run_impl group_size matched outcome).groups).map
      (fun g => g.2.2.map Job.id)).flatten).Nodup := hperm.symm.nodup hids
  exact List.nodup_flatten.mp hnd

/-- Under distinct matched job ids, the concatenation of the per-group id
lists of run_impl is duplicate-free. -/
theorem run_impl_ids_flatten_nodup (group_size : Nat)
    (matched : List (String × GitLabRunnerInstance × Job))
    (outcome : String → Nat → Bool)
    (hids : (matched.map (fun t => t.2.2.id)).Nodup) :
    ((((run_impl group_size matched outcome).groups).map
      (fun g => g.2.2.map Job.id)).flatten).Nodup := by
  have hperm : ((((run_impl group_size matched outcome).groups).map
        (fun g => g.2.2.map Job.id)).flatten).Perm
      (matched.map (fun t => t.2.2.id)) := by
    have h1 : (((run_impl group_size matched outcome).groups).map
          (fun g => g.2.2.map Job.id)).flatten
        = (((run_impl group_size matched outcome).groups).flatMap
          (fun g => g.2.2)).map Job.id := by
      rw [List.map_flatMap]
      rfl
    rw [h1]
    have := (run_impl_groups_jobs_perm group_size matched outcome).map Job.id
    rwa [List.map_map] at this
  exact hperm.symm.nodup hids

/-- Two different positions of a duplicate-free flattened list hold disjoint
member lists. -/
theorem disjoint_of_nodup_flatten_ne {α : Type} {L : List (List α)}
    (hnd : L.flatten.Nodup) {i j : Nat} (hi : i < L.length) (hj : j < L.length)
    (hne : i ≠ j) : List.Disjoint (L.get ⟨i, hi⟩) (L.get ⟨j, hj⟩) := by
  obtain ⟨-, hpair⟩ := List.nodup_flatten.mp hnd
  rw [List.pairwise_iff_get] at hpair
  rcases Nat.lt_or_ge i j with h | h
  · exact hpair ⟨i, hi⟩ ⟨j, hj⟩ h
  · have hji : j < i := by omega
    have hd := hpair ⟨j, hj⟩ ⟨i, hi⟩ hji
    intro a hai haj
    exact hd haj hai

/-! Stable-sort lemmas for the launch ordering. -/

theorem launch_order_le_trans (a b c : Option Nat)
    (hab : launch_order_le a b = true) (hbc : launch_order_le b c = true) :
    launch_order_le a c = true := by
  cases a <;> cases b <;> cases c <;> simp_all [launch_order_le] <;> omega

theorem launch_order_le_total (a b : Option Nat) :
    (launch_order_le a b || launch_order_le b a) = true := by
  cases a <;> cases b <;> simp [launch_order_le] <;> omega

theorem launch_order_le_of_eq (a b : Option Nat) (h : a = b) :
    launch_order_le a b = true := by
  subst h
  cases a <;> simp [launch_order_le]

theorem sorted_insertSorted {α : Type} (le : α → α → Bool)
    (htrans : ∀ a b c, le a b = true → le b c = true → le a c = true)
    (htotal : ∀ a b, (le a b || le b a) = true)
    (x : α) (l : List α) (h : l.Pairwise (fun a b => le a b = true)) :
    (insertSorted le x l).Pairwise (fun a b => le a b = true) := by
  induction l with
  | nil => simp [insertSorted]
  | cons y ys ih =>
    rw [List.pairwise_cons] at h
    obtain ⟨hy, hys⟩ := h
    unfold insertSorted
    by_cases hxy : le x y
    · rw [if_pos hxy]
      apply List.Pairwise.cons
      · intro z hz
        rcases List.mem_cons.mp hz with rfl | hz
        · exact hxy
        · exact htrans x y z hxy (hy z hz)
      · exact List.Pairwise.cons hy hys
    · rw [if_neg hxy]
      have hyx : le y x = true := by
        have := htotal x y
        rcases Bool.or_eq_true_iff.mp this with h1 | h1
        · exact absurd h1 hxy
        · exact h1
      apply List.Pairwise.cons
      · intro z hz
        rcases (mem_insertSorted le x z ys).mp hz with rfl | hz
        · exact hyx
        · exact hy z hz
      · exact ih hys

theorem sorted_insertionSort {α : Type} (le : α → α → Bool)
    (htrans : ∀ a b c, le a b = true → le b c = true → le a c = true)
    (htotal : ∀ a b, (le a b || le b a) = true)
    (l : List α) :
    (insertionSort le l).Pairwise (fun a b => le a b = true) := by
  induction l with
  | nil => simp [insertionSort]
  | cons x xs ih =>
    exact sorted_insertSorted le htrans htotal x (insertionSort le xs) ih

theorem filter_insertSorted_pos {α : Type} (le : α → α → Bool) (p : α → Bool)
    (hp : ∀ a b, p a = true → p b = true → le a b = true)
    (x : α) (hx : p x = true) (l : List α) :
    (insertSorted le x l).filter p = x :: l.filter p := by
  induction l with
  | nil => simp [insertSorted, hx]
  | cons y ys ih =>
    unfold insertSorted
    by_cases hxy : le x y
    · rw [if_pos hxy, List.filter_cons_of_pos hx]
    · rw [if_neg hxy]
      have hpy : p y = false := by
        cases hyv : p y with
        | false => rfl
        | true => exact absurd (hp x y hx hyv) hxy
      rw [List.filter_cons_of_neg (by simp [hpy]), ih,
        List.filter_cons_of_neg (by simp [hpy])]

theorem filter_insertSorted_neg {α : Type} (le : α → α → Bool) (p : α → Bool)
    (x : α) (hx : p x = false) (l : List α) :
    (insertSorted le x l).filter p = l.filter p := by
  induction l with
  | nil => simp [insertSorted, hx]
  | cons y ys ih =>
    unfold insertSorted
    by_cases hxy : le x y
    · rw [if_pos hxy, List.filter_cons_of_neg (by simp [hx])]
    · rw [if_neg hxy]
      cases hyv : p y with
      | false =>
        rw [List.filter_cons_of_neg (by simp [hyv]), ih,
          List.filter_cons_of_neg (by simp [hyv])]
      | true =>
        rw [List.filter_cons_of_pos hyv, ih, List.filter_cons_of_pos hyv]

/-- Stability of the insertion sort as a filter equation: filtering by a
class of mutually comparable elements commutes with sorting. -/
theorem insertionSort_filter_stable {α : Type} (le : α → α → Bool)
    (p : α → Bool) (hp : ∀ a b, p a = true → p b = true → le a b = true)
    (l : List α) :
    (insertionSort le l).filter p = l.filter p := by
  induction l with
  | nil => rfl
  | cons x xs ih =>
    unfold insertionSort
    cases hx : p x with
    | true =>
      rw [filter_insertSorted_pos le p hp x hx, ih, List.filter_cons_of_pos hx]
    | false =>
      rw [filter_insertSorted_neg le p x hx, ih, List.filter_cons_of_neg (by simp [hx])]

/-! Poll-loop monotonicity lemmas. -/

theorem subset_stepCycle (instances : List (String × GitLabRunnerInstance))
    (group_size : Nat) (s : Finset Nat) (c : CyclePoll) :
    s ⊆ stepCycle instances group_size s c := by
  cases c with
  | failed => exact Finset.Subset.refl s
  | polled jobs outcome => exact Finset.subset_union_left

theorem subset_runCycles (instances : List (String × GitLabRunnerInstance))
    (group_size : Nat) (s : Finset Nat) (cycles : List CyclePoll) :
    s ⊆ runCycles instances group_size s cycles := by
  induction cycles generalizing s with
  | nil => exact Finset.Subset.refl s
  | cons c cs ih =>
    exact (subset_stepCycle instances group_size s c).trans
      (ih (stepCycle instances group_size s c))

theorem runCycles_take_mono (instances : List (String × GitLabRunnerInstance))
    (group_size : Nat) (s : Finset Nat) (cycles : List CyclePoll) (j k : Nat)
    (hjk : j ≤ k) :
    runCycles instances group_size s (cycles.take j) ⊆
      runCycles instances group_size s (cycles.take k) := by
  have hk : k = j + (k - j) := by omega
  rw [hk, List.take_add]
  unfold runCycles
  rw [List.foldl_append]
  exact subset_runCycles instances group_size _ _

/-! Reconciler lemmas. -/

theorem removedKeys_nil (runners : List (String × List String))
    (tokens : List (String × RunnerRegistration)) (env : ReconcileEnv)
    (hupd : ∀ k, is_error_not_found (env.updateResp k) = false) :
    removedKeys runners tokens env = [] := by
  unfold removedKeys
  have h : (updateResults runners tokens env).filter (fun p => is_error_not_found p.2) = [] := by
    apply List.filter_eq_nil_iff.mpr
    intro p hp
    obtain ⟨t, _, rfl⟩ := List.mem_map.mp hp
    simp [hupd]
  rw [h]
  rfl

theorem currentKeysAfterUpdate_eq (runners : List (String × List String))
    (tokens : List (String × RunnerRegistration)) (env : ReconcileEnv)
    (hupd : ∀ k, is_error_not_found (env.updateResp k) = false) :
    currentKeysAfterUpdate runners tokens env = tokenKeys tokens := by
  unfold currentKeysAfterUpdate
  rw [removedKeys_nil runners tokens env hupd]
  apply List.filter_eq_self.mpr
  intro a _
  simp

theorem mem_currentKeysAfterUpdate (runners : List (String × List String))
    (tokens : List (String × RunnerRegistration)) (env : ReconcileEnv)
    (k : String) (hk : k ∈ currentKeysAfterUpdate runners tokens env) :
    k ∈ tokenKeys tokens :=
  (List.mem_filter.mp hk).1

/-- Every key of the result registration map is a desired key: the update
phase keeps only keys in the intersection, and the create phase only keys in
the desired set. -/
theorem newTokensMap_keys_subset (runners : List (String × List String))
    (tokens : List (String × RunnerRegistration)) (env : ReconcileEnv)
    (k : String) (hk : k ∈ tokenKeys (newTokensMap runners tokens env)) :
    k ∈ runnerKeys runners := by
  unfold tokenKeys newTokensMap at hk
  rw [List.map_append] at hk
  rcases List.mem_append.mp hk with h | h
  · obtain ⟨t, ht, rfl⟩ := List.mem_map.mp h
    obtain ⟨p, hp, rfl⟩ := List.mem_map.mp ht
    have hpmem : p ∈ updateResults runners tokens env := (List.mem_filter.mp hp).1
    obtain ⟨t2, ht2, rfl⟩ := List.mem_map.mp hpmem
    have := (List.mem_filter.mp ht2).2
    simpa using this
  · obtain ⟨t, ht, rfl⟩ := List.mem_map.mp h
    obtain ⟨q, hq, hqeq⟩ := List.mem_filterMap.mp ht
    obtain ⟨k2, hk2, rfl⟩ := List.mem_map.mp hq
    have hk2' : k2 ∈ to_add runners tokens env := hk2
    cases hresp : env.addResp k2 with
    | ok reg =>
      rw [hresp] at hqeq
      simp only [Option.some.injEq] at hqeq
      subst hqeq
      exact (List.mem_filter.mp hk2').1
    | err e =>
      rw [hresp] at hqeq
      simp at hqeq

/-- Under update calls that never answer NotFound and create calls that all
succeed, every desired key ends up in the result registration map. -/
theorem newTokensMap_keys_complete (runners : List (String × List String))
    (tokens : List (String × RunnerRegistration)) (env : ReconcileEnv)
    (hupd : ∀ k, is_error_not_found (env.updateResp k) = false)
    (hadd : ∀ k ∈ to_add runners tokens env, ∃ reg, env.addResp k = .ok reg)
    (k : String) (hk : k ∈ runnerKeys runners) :
    k ∈ tokenKeys (newTokensMap runners tokens env) := by
  unfold tokenKeys newTokensMap
  rw [List.map_append, List.mem_append]
  by_cases hcur : k ∈ tokenKeys tokens
  · left
    obtain ⟨t, ht, rfl⟩ := List.mem_map.mp hcur
    have htu : t ∈ to_update runners tokens := by
      apply List.mem_filter.mpr
      exact ⟨ht, by simpa using hk⟩
    have hur : (t, env.updateResp t.1) ∈ updateResults runners tokens env :=
      List.mem_map.mpr ⟨t, htu, rfl⟩
    have hkept : (t, env.updateResp t.1) ∈ keptUpdates runners tokens env := by
      apply List.mem_filter.mpr
      refine ⟨hur, ?_⟩
      simp [hupd]
    apply List.mem_map.mpr
    refine ⟨t, ?_, rfl⟩
    exact List.mem_map.mpr ⟨(t, env.updateResp t.1), hkept, rfl⟩
  · right
    have hta : k ∈ to_add runners tokens env := by
      apply List.mem_filter.mpr
      refine ⟨hk, ?_⟩
      rw [currentKeysAfterUpdate_eq runners tokens env hupd]
      simpa using hcur
    obtain ⟨reg, hreg⟩ := hadd k hta
    have har : (k, env.addResp k) ∈ addResults runners tokens env :=
      List.mem_map.mpr ⟨k, hta, rfl⟩
    have hmem : (k, reg) ∈ addedTokens runners tokens env := by
      apply List.mem_filterMap.mpr
      refine ⟨(k, env.addResp k), har, ?_⟩
      rw [hreg]
    exact List.mem_map.mpr ⟨(k, reg), hmem, rfl⟩

/-- A job id in the successful set at the start of a cycle is never part of
that cycle's dispatched jobs. -/
theorem not_mem_dispatchedIds (s : Finset Nat)
    (instances : List (String × GitLabRunnerInstance)) (jobs : List Job)
    (id : Nat) (hid : id ∈ s) :
    id ∉ dispatchedIds s instances jobs := by
  intro hmem
  unfold dispatchedIds check_jobs at hmem
  obtain ⟨t, ht, hteq⟩ := List.mem_map.mp hmem
  obtain ⟨job, hjob, hjeq⟩ := List.mem_filterMap.mp ht
  have hfilter := (List.mem_filter.mp hjob).2
  have hjobid : job.id ∉ s := by simpa using hfilter
  cases hfm : find_match instances job with
  | none => rw [hfm] at hjeq; simp at hjeq
  | some pr =>
    rw [hfm] at hjeq
    simp only [Option.map_some'] at hjeq
    cases hjeq
    exact hjobid (hteq ▸ hid)

/-! Claim theorems. -/

/-- C2: once a job id has entered the successful-id set after some cycle, it
is never part of the dispatched jobs of any later cycle, even if the fetched
job listing still contains it; and the set only ever grows (each cycle state
contains every earlier cycle state). -/
theorem C2_successful_ids_monotone_never_redispatched
    (instances : List (String × GitLabRunnerInstance)) (group_size : Nat)
    (s0 : Finset Nat) (cycles : List CyclePoll) (j k : Nat) (hjk : j ≤ k)
    (id : Nat) (hid : id ∈ runCycles instances group_size s0 (cycles.take j)) :
    id ∈ runCycles instances group_size s0 (cycles.take k) ∧
      ∀ jobs outcome, cycles[k]? = some (.polled jobs outcome) →
        id ∉ dispatchedIds (runCycles instances group_size s0 (cycles.take k))
          instances jobs := by
  have hmono := runCycles_take_mono instances group_size s0 cycles j k hjk
  refine ⟨hmono hid, ?_⟩
  intro jobs outcome _
  exact not_mem_dispatchedIds _ instances jobs id (hmono hid)

/-- Witness for C2: job 1 succeeds in the first cycle; at the start of the
second cycle it is in the set and is not dispatched although the listing
still reports it pending. -/
theorem C2_witness :
    (1 : Nat) ∈ runCycles [("A", ⟨["x"], none, []⟩)] 1 ∅
        ([CyclePoll.polled [Job.mk 1 "j" ["x"]] (fun _ _ => true),
          CyclePoll.polled [Job.mk 1 "j" ["x"]] (fun _ _ => true)].take 1) ∧
      ∀ jobs outcome,
        [CyclePoll.polled [Job.mk 1 "j" ["x"]] (fun _ _ => true),
          CyclePoll.polled [Job.mk 1 "j" ["x"]] (fun _ _ => true)][1]? =
            some (.polled jobs outcome) →
          (1 : Nat) ∉ dispatchedIds
            (runCycles [("A", ⟨["x"], none, []⟩)] 1 ∅
              ([CyclePoll.polled [Job.mk 1 "j" ["x"]] (fun _ _ => true),
                CyclePoll.polled [Job.mk 1 "j" ["x"]] (fun _ _ => true)].take 1))
            [("A", ⟨["x"], none, []⟩)] jobs :=
  C2_successful_ids_monotone_never_redispatched [("A", ⟨["x"], none, []⟩)] 1 ∅
    [CyclePoll.polled [Job.mk 1 "j" ["x"]] (fun _ _ => true),
      CyclePoll.polled [Job.mk 1 "j" ["x"]] (fun _ _ => true)] 1 1 (le_refl 1) 1
    (by decide)

/-- C3: for every launch batch of a cycle (a chunk of a group, served by one
process whose success the outcome oracle reports per group name and chunk
index), the outcome is atomic over the batch's job ids: a successful process
puts every id of the batch into the cycle's successful list, a failed one
puts none of them there (given globally distinct job ids). -/
theorem C3_batch_atomic (group_size : Nat)
    (matched : List (String × GitLabRunnerInstance × Job))
    (outcome : String → Nat → Bool)
    (hids : (matched.map (fun t => t.2.2.id)).Nodup)
    (g : JobGroup) (hg : g ∈ (run_impl group_size matched outcome).groups)
    (i : Nat) (ch : List Job)
    (hch : (chunkList group_size g.2.2)[i]? = some ch) :
    (outcome g.1 i = true →
      ∀ j ∈ ch, j.id ∈ (run_impl group_size matched outcome).successful) ∧
    (outcome g.1 i = false →
      ∀ j ∈ ch, j.id ∉ (run_impl group_size matched outcome).successful) := by
  constructor
  · intro htrue j hj
    show j.id ∈ (sortGroups (groupByName matched)).flatMap (fun g' =>
      ((chunkList group_size g'.2.2).enum.filter (fun p => outcome g'.1 p.1)).flatMap
        (fun p => p.2.map Job.id))
    apply List.mem_flatMap.mpr
    refine ⟨g, hg, ?_⟩
    apply List.mem_flatMap.mpr
    refine ⟨(i, ch), ?_, ?_⟩
    · apply List.mem_filter.mpr
      exact ⟨List.mem_enum_iff_getElem?.mpr hch, htrue⟩
    · exact List.mem_map.mpr ⟨j, hj, rfl⟩
  · intro hfalse j hj hmem
    have hmem' : j.id ∈ (sortGroups (groupByName matched)).flatMap (fun g' =>
        ((chunkList group_size g'.2.2).enum.filter (fun p => outcome g'.1 p.1)).flatMap
          (fun p => p.2.map Job.id)) := hmem
    obtain ⟨g', hg', hid1⟩ := List.mem_flatMap.mp hmem'
    obtain ⟨p, hp, hid2⟩ := List.mem_flatMap.mp hid1
    have hpf := List.mem_filter.mp hp
    have hpenum : (chunkList group_size g'.2.2)[p.1]? = some p.2 :=
      List.mem_enum_iff_getElem?.mp hpf.1
    have hpout : outcome g'.1 p.1 = true := hpf.2
    obtain ⟨j', hj'mem, hj'id⟩ := List.mem_map.mp hid2
    have hg'mem : g' ∈ (run_impl group_size matched outcome).groups := hg'
    obtain ⟨a, ha⟩ := List.get_of_mem hg
    obtain ⟨b, hb⟩ := List.get_of_mem hg'mem
    have hflat := run_impl_ids_flatten_nodup group_size matched outcome hids
    by_cases hab : a.1 = b.1
    · -- same group: two different chunks of it are id-disjoint
      have hgeq : g = g' := by
        rw [← ha, ← hb]
        exact congrArg _ (Fin.ext hab)
      rw [← hgeq] at hpenum hpout
      have hne : i ≠ p.1 := by
        intro h
        rw [← h] at hpout
        rw [hfalse] at hpout
        exact Bool.false_ne_true hpout
      have hgNodup : (g.2.2.map Job.id).Nodup := by
        have hall := (List.nodup_flatten.mp hflat).1
        exact hall (g.2.2.map Job.id)
          (List.mem_map_of_mem (fun g0 => g0.2.2.map Job.id) hg)
      have hchunksNodup :
          (((chunkList group_size g.2.2).map (List.map Job.id)).flatten).Nodup := by
        rw [flatten_map_chunkList_ids]
        exact hgNodup
      obtain ⟨hilt, hieq⟩ := List.getElem?_eq_some_iff.mp hch
      obtain ⟨hplt, hpeq⟩ := List.getElem?_eq_some_iff.mp hpenum
      have hilt2 : i < ((chunkList group_size g.2.2).map (List.map Job.id)).length := by
        rw [List.length_map]
        exact hilt
      have hplt2 : p.1 < ((chunkList group_size g.2.2).map (List.map Job.id)).length := by
        rw [List.length_map]
        exact hplt
      have hdisj := disjoint_of_nodup_flatten_ne hchunksNodup hilt2 hplt2 hne
      have hLi : ((chunkList group_size g.2.2).map (List.map Job.id)).get ⟨i, hilt2⟩
          = ch.map Job.id := by
        simp only [List.get_eq_getElem, List.getElem_map]
        rw [hieq]
      have hLp : ((chunkList group_size g.2.2).map (List.map Job.id)).get ⟨p.1, hplt2⟩
          = p.2.map Job.id := by
        simp only [List.get_eq_getElem, List.getElem_map]
        rw [hpeq]
      have hjin : j.id ∈ ch.map Job.id := List.mem_map.mpr ⟨j, hj, rfl⟩
      have hjin' : j.id ∈ p.2.map Job.id := by
        rw [← hj'id]
        exact List.mem_map.mpr ⟨j', hj'mem, rfl⟩
      rw [hLi] at hdisj
      rw [hLp] at hdisj
      exact hdisj hjin hjin'
    · -- different groups: their id lists are disjoint
      have halt : a.1 < ((run_impl group_size matched outcome).groups.map
          (fun g0 => g0.2.2.map Job.id)).length := by
        rw [List.length_map]
        exact a.2
      have hblt : b.1 < ((run_impl group_size matched outcome).groups.map
          (fun g0 => g0.2.2.map Job.id)).length := by
        rw [List.length_map]
        exact b.2
      have hdisj := disjoint_of_nodup_flatten_ne hflat halt hblt hab
      have hLa : ((run_impl group_size matched outcome).groups.map
          (fun g0 => g0.2.2.map Job.id)).get ⟨a.1, halt⟩ = g.2.2.map Job.id := by
        simp only [List.get_eq_getElem, List.getElem_map]
        rw [show (run_impl group_size matched outcome).groups[a.1] = g from ha]
      have hLb : ((run_impl group_size matched outcome).groups.map
          (fun g0 => g0.2.2.map Job.id)).get ⟨b.1, hblt⟩ = g'.2.2.map Job.id := by
        simp only [List.get_eq_getElem, List.getElem_map]
        rw [show (run_impl group_size matched outcome).groups[b.1] = g' from hb]
      have hchmem : ch ∈ chunkList group_size g.2.2 := by
        obtain ⟨hl, he⟩ := List.getElem?_eq_some_iff.mp hch
        exact he ▸ List.getElem_mem hl
      have hjg : j ∈ g.2.2 := by
        rw [← flatten_chunkList group_size g.2.2]
        exact List.mem_flatten.mpr ⟨ch, hchmem, hj⟩
      have hchmem' : p.2 ∈ chunkList group_size g'.2.2 := by
        obtain ⟨hl, he⟩ := List.getElem?_eq_some_iff.mp hpenum
        exact he ▸ List.getElem_mem hl
      have hjg' : j' ∈ g'.2.2 := by
        rw [← flatten_chunkList group_size g'.2.2]
        exact List.mem_flatten.mpr ⟨p.2, hchmem', hj'mem⟩
      have hjin : j.id ∈ g.2.2.map Job.id := List.mem_map.mpr ⟨j, hjg, rfl⟩
      have hjin' : j.id ∈ g'.2.2.map Job.id := by
        rw [← hj'id]
        exact List.mem_map.mpr ⟨j', hjg', rfl⟩
      rw [hLa] at hdisj
      rw [hLb] at hdisj
      exact hdisj hjin hjin'

/-- Witness for C3: two singleton groups; the process of group A succeeds so
id 1 enters the successful list, the process of group B fails so id 2 does
not. -/
theorem C3_witness :
    (1 : Nat) ∈ (run_impl 1
        [("A", ⟨[], none, []⟩, Job.mk 1 "a" []), ("B", ⟨[], none, []⟩, Job.mk 2 "b" [])]
        (fun n _ => n == "A")).successful ∧
      (2 : Nat) ∉ (run_impl 1
        [("A", ⟨[], none, []⟩, Job.mk 1 "a" []), ("B", ⟨[], none, []⟩, Job.mk 2 "b" [])]
        (fun n _ => n == "A")).successful :=
  ⟨(C3_batch_atomic 1
      [("A", ⟨[], none, []⟩, Job.mk 1 "a" []), ("B", ⟨[], none, []⟩, Job.mk 2 "b" [])]
      (fun n _ => n == "A") (by decide)
      ("A", ⟨[], none, []⟩, [Job.mk 1 "a" []]) (by decide)
      0 [Job.mk 1 "a" []] (by decide)).1 (by decide) (Job.mk 1 "a" []) (by decide),
    (C3_batch_atomic 1
      [("A", ⟨[], none, []⟩, Job.mk 1 "a" []), ("B", ⟨[], none, []⟩, Job.mk 2 "b" [])]
      (fun n _ => n == "A") (by decide)
      ("B", ⟨[], none, []⟩, [Job.mk 2 "b" []]) (by decide)
      0 [Job.mk 2 "b" []] (by decide)).2 (by decide) (Job.mk 2 "b" []) (by decide)⟩

/-- C4: for every map of instances and every pending job, find_match returns
an instance only if the job's tag set is contained in that instance's tag
set; among the eligible instances it returns one with the fewest tags; and
it returns none exactly when no instance's tag set contains all the job's
tags. -/
theorem C4_find_match_spec (instances : List (String × GitLabRunnerInstance)) (job : Job) :
    (∀ name inst, find_match instances job = some (name, inst) →
      ((name, inst) ∈ instances ∧ (∀ t ∈ job.tags, t ∈ inst.tags) ∧
        ∀ p ∈ instances, (∀ t ∈ job.tags, t ∈ p.2.tags) →
          inst.tags.length ≤ p.2.tags.length)) ∧
    (find_match instances job = none ↔
      ∀ p ∈ instances, ¬ ∀ t ∈ job.tags, t ∈ p.2.tags) := by
  constructor
  · intro name inst h
    unfold find_match at h
    obtain ⟨hmem, hmin⟩ := minByKeyFirst_some_spec _ h
    have h1 := List.mem_filter.mp hmem
    refine ⟨h1.1, (tagsEligible_iff job inst.tags).mp h1.2, ?_⟩
    intro p hp hpe
    exact hmin p (List.mem_filter.mpr ⟨hp, (tagsEligible_iff job p.2.tags).mpr hpe⟩)
  · unfold find_match
    rw [minByKeyFirst_eq_none_iff, List.filter_eq_nil_iff]
    constructor
    · intro h p hp hc
      exact h p hp ((tagsEligible_iff job p.2.tags).mpr hc)
    · intro h p hp hc
      exact h p hp ((tagsEligible_iff job p.2.tags).mp hc)

/-- Witness for C4: two instances with tag sets containing the job's tags
x, y; the returned instance is the listed one with the fewest tags. -/
theorem C4_witness :
    ("A", (⟨["x", "y"], none, []⟩ : GitLabRunnerInstance)) ∈
        [("A", (⟨["x", "y"], none, []⟩ : GitLabRunnerInstance)),
          ("B", (⟨["x", "y", "z"], none, []⟩ : GitLabRunnerInstance))] ∧
      (∀ t ∈ (Job.mk 1 "j" ["x", "y"]).tags,
        t ∈ (⟨["x", "y"], none, []⟩ : GitLabRunnerInstance).tags) ∧
      ∀ p ∈ [("A", (⟨["x", "y"], none, []⟩ : GitLabRunnerInstance)),
          ("B", (⟨["x", "y", "z"], none, []⟩ : GitLabRunnerInstance))],
        (∀ t ∈ (Job.mk 1 "j" ["x", "y"]).tags, t ∈ p.2.tags) →
          (⟨["x", "y"], none, []⟩ : GitLabRunnerInstance).tags.length ≤ p.2.tags.length :=
  (C4_find_match_spec
      [("A", ⟨["x", "y"], none, []⟩), ("B", ⟨["x", "y", "z"], none, []⟩)]
      (Job.mk 1 "j" ["x", "y"])).1 "A" ⟨["x", "y"], none, []⟩ (by decide)

/-- C5: in every dispatch cycle the grouped jobs are sorted with the
launch_order comparison (instance priority descending, unprioritized
instances last), the sorted list is a permutation of the grouping, and the
original relative order is preserved among ties (groups with equal
priorities). -/
theorem C5_groups_sorted_stable (groups : List JobGroup) :
    (∀ group_size matched outcome,
      (run_impl group_size matched outcome).groups = sortGroups (groupByName matched)) ∧
    (sortGroups groups).Pairwise
        (fun a b => launch_order_le a.2.1.launch_priority b.2.1.launch_priority = true) ∧
      (sortGroups groups).Perm groups ∧
      ∀ pr : Option Nat,
        (sortGroups groups).filter (fun g => decide (g.2.1.launch_priority = pr)) =
          groups.filter (fun g => decide (g.2.1.launch_priority = pr)) := by
  refine ⟨fun _ _ _ => rfl, ?_, insertionSort_perm _ _, ?_⟩
  · show (insertionSort
        (fun a b : JobGroup => launch_order_le a.2.1.launch_priority b.2.1.launch_priority)
        groups).Pairwise _
    exact sorted_insertionSort
      (fun a b : JobGroup => launch_order_le a.2.1.launch_priority b.2.1.launch_priority)
      (fun a b c => launch_order_le_trans _ _ _)
      (fun a b => launch_order_le_total _ _) groups
  · intro pr
    apply insertionSort_filter_stable
    intro a b ha hb
    have ha' : a.2.1.launch_priority = pr := of_decide_eq_true ha
    have hb' : b.2.1.launch_priority = pr := of_decide_eq_true hb
    exact launch_order_le_of_eq _ _ (ha'.trans hb'.symm)

/-- C6 counterexample: with group_size 2 and three jobs on one instance, the
final batch holds a single job but its launch configuration was expanded
with NUM_JOBS bound to 2, not to the batch's actual size 1. -/
theorem C6_counterexample :
    Launch.mk "A" 2 [Job.mk 3 "c" []] ∈
        (run_impl 2
          [("A", ⟨[], none, []⟩, Job.mk 1 "a" []),
            ("A", ⟨[], none, []⟩, Job.mk 2 "b" []),
            ("A", ⟨[], none, []⟩, Job.mk 3 "c" [])]
          (fun _ _ => true)).launches ∧
      (Launch.mk "A" 2 [Job.mk 3 "c" []]).batch.length ≠
        (Launch.mk "A" 2 [Job.mk 3 "c" []]).numJobs := by
  decide

/-- C6 (amended): every launch batch's configuration is expanded with
NUM_JOBS bound to the configured group_size; the per-group expansion of
src/run.rs line 195 is computed once and reused for every chunk, including a
smaller final one. -/
theorem C6_numJobs_is_group_size (group_size : Nat)
    (matched : List (String × GitLabRunnerInstance × Job))
    (outcome : String → Nat → Bool) (L : Launch)
    (hL : L ∈ (run_impl group_size matched outcome).launches) :
    L.numJobs = group_size := by
  have hL' : L ∈ (sortGroups (groupByName matched)).flatMap (fun g =>
      (chunkList group_size g.2.2).map (fun chunk =>
        { name := g.1, numJobs := group_size, batch := chunk : Launch })) := hL
  obtain ⟨g, hg, hmem⟩ := List.mem_flatMap.mp hL'
  obtain ⟨chunk, hchunk, rfl⟩ := List.mem_map.mp hmem
  rfl

/-- Witness for C6 (amended) at a singleton dispatch with group_size 2. -/
theorem C6_witness :
    (Launch.mk "A" 2 [Job.mk 1 "a" []]).numJobs = 2 :=
  C6_numJobs_is_group_size 2 [("A", ⟨[], none, []⟩, Job.mk 1 "a" [])]
    (fun _ _ => true) (Launch.mk "A" 2 [Job.mk 1 "a" []]) (by decide)

/-- C7 counterexample: on the timeout path (status never retrieved), the
launch executor returns its verdict without reading the output and error
streams, contradicting the claim that the streams are read to completion
regardless of the outcome. -/
theorem C7_counterexample :
    (launch_runner
        { spawnOk := true, writeOk := true, status := .timeout,
          readOutOk := true, readErrOk := true }).verdict = .timedOut ∧
      (launch_runner
        { spawnOk := true, writeOk := true, status := .timeout,
          readOutOk := true, readErrOk := true }).streamsRead = false := by
  decide

/-- C7 (amended): the launch executor reads both streams to completion
before returning exactly on the paths where the process status was
successfully retrieved (zero or non-zero exit); on spawn failure, stdin
write failure, timeout, or status-retrieval failure it returns without
reading the streams. -/
theorem C7_streams_read_iff_status_retrieved (env : LaunchEnv) :
    (launch_runner env).streamsRead = true ↔
      (env.spawnOk = true ∧ env.writeOk = true ∧ ∃ c, env.status = .exited c) := by
  obtain ⟨spawnOk, writeOk, status, readOutOk, readErrOk⟩ := env
  cases spawnOk <;> cases writeOk <;> cases status <;> cases readOutOk <;>
    cases readErrOk <;> simp [launch_runner] <;> rename_i c <;> cases c <;> simp

/-- C10: an absent group_size field defaults to the value of config::one,
which is 1; with that group size every launch batch contains exactly one job
and exactly one launch (one external process) is produced per matched
job. -/
theorem C10_default_group_size_singleton_batches :
    (groupSizeOrDefault none = one ∧ one = 1) ∧
    (∀ matched outcome, ∀ L : Launch,
      L ∈ (run_impl (groupSizeOrDefault none) matched outcome).launches →
        L.batch.length = 1) ∧
    (∀ matched outcome,
      (run_impl (groupSizeOrDefault none) matched outcome).launches.length =
        matched.length) := by
  refine ⟨⟨rfl, rfl⟩, ?_, ?_⟩
  · intro matched outcome L hL
    have hL' : L ∈ (sortGroups (groupByName matched)).flatMap (fun g =>
        (chunkList 1 g.2.2).map (fun chunk =>
          { name := g.1, numJobs := 1, batch := chunk : Launch })) := hL
    obtain ⟨g, hg, hmem⟩ := List.mem_flatMap.mp hL'
    obtain ⟨chunk, hchunk, rfl⟩ := List.mem_map.mp hmem
    rw [chunkList_one] at hchunk
    obtain ⟨x, _, rfl⟩ := List.mem_map.mp hchunk
    rfl
  · intro matched outcome
    have h1 : (run_impl (groupSizeOrDefault none) matched outcome).launches.length
        = ((run_impl (groupSizeOrDefault none) matched outcome).groups.flatMap
            (fun g => g.2.2)).length := by
      show ((sortGroups (groupByName matched)).flatMap (fun g =>
        (chunkList 1 g.2.2).map (fun chunk =>
          { name := g.1, numJobs := 1, batch := chunk : Launch }))).length = _
      rw [List.length_flatMap, List.length_flatMap]
      congr 1
      apply List.map_congr_left
      intro g _
      simp [Function.comp, chunkList_one]
    rw [h1, (run_impl_groups_jobs_perm (groupSizeOrDefault none) matched
      outcome).length_eq, List.length_map]

/-- Witness for C10 at a single matched job with the default group size. -/
theorem C10_witness :
    (Launch.mk "A" 1 [Job.mk 5 "a" []]).batch.length = 1 :=
  C10_default_group_size_singleton_batches.2.1
    [("A", ⟨[], none, []⟩, Job.mk 5 "a" [])] (fun _ _ => true)
    (Launch.mk "A" 1 [Job.mk 5 "a" []]) (by decide)

/-- C1 evaluated at the failing input: desired set empty, current set
mapping X to registration id 7, delete responding with a non-NotFound error.
The delete call is issued and the error is recorded, but the result (and
persisted) registration map no longer contains X, so the deletion is not
retried on the next pass — although the source's own log message at
src/configure.rs line 171 states the runner is kept in the list. -/
theorem C1_delete_error_drops_registration :
    (update_registrations [] [("X", ⟨7, "tok"⟩)]
        { updateResp := fun _ => .ok ()
          addResp := fun _ => .err (.otherKind 0)
          deleteResp := fun _ => .err (.otherKind 0) }).deleteCalls = ["X"] ∧
      (update_registrations [] [("X", ⟨7, "tok"⟩)]
        { updateResp := fun _ => .ok ()
          addResp := fun _ => .err (.otherKind 0)
          deleteResp := fun _ => .err (.otherKind 0) }).errors = [.otherKind 0] ∧
      (update_registrations [] [("X", ⟨7, "tok"⟩)]
        { updateResp := fun _ => .ok ()
          addResp := fun _ => .err (.otherKind 0)
          deleteResp := fun _ => .err (.otherKind 0) }).newTokens = [] := by
  decide

/-- C8: the full result registration map is written to the store
unconditionally (the written map equals the result map even when per-item
errors were collected), and the invocation returns the first collected error
when any occurred, otherwise success with the result map. -/
theorem C8_persist_full_map_return_first_error (runners : List (String × List String))
    (tokens : List (String × RunnerRegistration)) (env : ReconcileEnv) :
    (update_registrations runners tokens env).written =
        (update_registrations runners tokens env).newTokens ∧
      ((update_registrations runners tokens env).errors = [] →
        (update_registrations runners tokens env).ret =
          .ok (update_registrations runners tokens env).newTokens) ∧
      ∀ e rest, (update_registrations runners tokens env).errors = e :: rest →
        (update_registrations runners tokens env).ret = .error e := by
  refine ⟨rfl, ?_, ?_⟩
  · intro h
    show (match reconcileErrors runners tokens env with
      | [] => Except.ok (newTokensMap runners tokens env)
      | e :: _ => Except.error e) = Except.ok (update_registrations runners tokens env).newTokens
    have h' : reconcileErrors runners tokens env = [] := h
    rw [h']
    rfl
  · intro e rest h
    show (match reconcileErrors runners tokens env with
      | [] => Except.ok (newTokensMap runners tokens env)
      | e :: _ => Except.error e) = Except.error e
    have h' : reconcileErrors runners tokens env = e :: rest := h
    rw [h']

/-- Witness for C8 at a pass whose single create call fails: the map is
still written and the first error is returned. -/
theorem C8_witness :
    (update_registrations [("a", [])] []
        { updateResp := fun _ => .ok ()
          addResp := fun _ => .err (.otherKind 5)
          deleteResp := fun _ => .ok () }).ret = .error (.otherKind 5) :=
  (C8_persist_full_map_return_first_error [("a", [])] []
      { updateResp := fun _ => .ok ()
        addResp := fun _ => .err (.otherKind 5)
        deleteResp := fun _ => .ok () }).2.2 (.otherKind 5) [] (by decide)

/-- C9 counterexample: desired set a, empty current set, first pass whose
create call fails with a non-NotFound error. No response of either pass is
NotFound, yet the second pass issues a create call for a, so the claim that
the second reconcile issues zero create and delete calls fails without an
assumption on first-pass create success. -/
theorem C9_counterexample :
    noNotFoundResponses
        { updateResp := fun _ => .ok ()
          addResp := fun _ => .err (.otherKind 0)
          deleteResp := fun _ => .ok () } ∧
      noNotFoundResponses
        { updateResp := fun _ => .ok ()
          addResp := fun _ => .ok ⟨1, "t"⟩
          deleteResp := fun _ => .ok () } ∧
      (update_registrations [("a", [])]
          (update_registrations [("a", [])] []
            { updateResp := fun _ => .ok ()
              addResp := fun _ => .err (.otherKind 0)
              deleteResp := fun _ => .ok () }).newTokens
          { updateResp := fun _ => .ok ()
            addResp := fun _ => .ok ⟨1, "t"⟩
            deleteResp := fun _ => .ok () }).addCalls = ["a"] := by
  refine ⟨⟨fun _ => rfl, fun _ => rfl, fun _ => rfl⟩,
    ⟨fun _ => rfl, fun _ => rfl, fun _ => rfl⟩, ?_⟩
  decide

/-- C9 (amended): for every desired set and current set, if no response of
either pass is NotFound and additionally every create call of the first pass
succeeds, then the second reconcile run on the first run's result map issues
zero create calls and zero delete calls (update-only). -/
theorem C9_second_reconcile_update_only (runners : List (String × List String))
    (tokens : List (String × RunnerRegistration)) (env1 env2 : ReconcileEnv)
    (h1 : noNotFoundResponses env1) (h2 : noNotFoundResponses env2)
    (hadd : ∀ k ∈ (update_registrations runners tokens env1).addCalls,
      ∃ reg, env1.addResp k = .ok reg) :
    (update_registrations runners
        (update_registrations runners tokens env1).newTokens env2).addCalls = [] ∧
      (update_registrations runners
        (update_registrations runners tokens env1).newTokens env2).deleteCalls = [] := by
  have hadd' : ∀ k ∈ to_add runners tokens env1, ∃ reg, env1.addResp k = .ok reg := hadd
  constructor
  · show to_add runners (newTokensMap runners tokens env1) env2 = []
    apply List.filter_eq_nil_iff.mpr
    intro k hk
    have hmem : k ∈ currentKeysAfterUpdate runners (newTokensMap runners tokens env1) env2 := by
      rw [currentKeysAfterUpdate_eq runners (newTokensMap runners tokens env1) env2 h2.1]
      exact newTokensMap_keys_complete runners tokens env1 h1.1 hadd' k hk
    simp [hmem]
  · show to_delete runners (newTokensMap runners tokens env1) env2 = []
    apply List.filter_eq_nil_iff.mpr
    intro k hk
    have hk' : k ∈ tokenKeys (newTokensMap runners tokens env1) :=
      mem_currentKeysAfterUpdate runners (newTokensMap runners tokens env1) env2 k hk
    have hmem : k ∈ runnerKeys runners :=
      newTokensMap_keys_subset runners tokens env1 k hk'
    simp [hmem]

/-- Witness for C9 (amended): one desired key, empty current set, all calls
succeeding in both passes. -/
theorem C9_witness :
    (update_registrations [("a", [])]
        (update_registrations [("a", [])] []
          { updateResp := fun _ => .ok ()
            addResp := fun _ => .ok ⟨1, "t"⟩
            deleteResp := fun _ => .ok () }).newTokens
        { updateResp := fun _ => .ok ()
          addResp := fun _ => .ok ⟨1, "t"⟩
          deleteResp := fun _ => .ok () }).addCalls = [] ∧
      (update_registrations [("a", [])]
        (update_registrations [("a", [])] []
          { updateResp := fun _ => .ok ()
            addResp := fun _ => .ok ⟨1, "t"⟩
            deleteResp := fun _ => .ok () }).newTokens
        { updateResp := fun _ => .ok ()
          addResp := fun _ => .ok ⟨1, "t"⟩
          deleteResp := fun _ => .ok () }).deleteCalls = [] :=
  C9_second_reconcile_update_only [("a", [])] []
    { updateResp := fun _ => .ok ()
      addResp := fun _ => .ok ⟨1, "t"⟩
      deleteResp := fun _ => .ok () }
    { updateResp := fun _ => .ok ()
      addResp := fun _ => .ok ⟨1, "t"⟩
      deleteResp := fun _ => .ok () }
    ⟨fun _ => rfl, fun _ => rfl, fun _ => rfl⟩
    ⟨fun _ => rfl, fun _ => rfl, fun _ => rfl⟩
    (fun k _ => ⟨⟨1, "t"⟩, rfl⟩)

end MetaRunner
